import Mathlib

/-!
Shallow embedding of the claude-history indexing tool
(`claude_history.py`, `history_index.py`, `history_search.py`).

Python strings are sequences of code points; we model them as Lean
`String` (logically `List Char`), and Python slicing `s[:n]` as
`pySlice`.  SQLite tables are modelled as insertion-ordered lists of
row structures; `INSERT OR IGNORE`, the `messages_ai` trigger and the
`ON CONFLICT ... DO UPDATE` upsert are given their documented SQLite
semantics as explicit state transformers.
-/

namespace ClaudeHistory

/-- Python slice `s[:n]`: the first `n` code points of `s`. -/
def pySlice (s : String) (n : Nat) : String := ⟨s.data.take n⟩

/-- One content block of a message payload, after field extraction:
`text` is a dict with `type == "text"` (carrying its `text` field),
`tool_use` a dict with `type == "tool_use"` (carrying its `name`),
`tool_result` a dict with `type == "tool_result"` (carrying the string
coercion `str(...)` of its `content` field), and `other` any non-dict
block or a dict with a missing/unrecognized `type`. -/
inductive Block
  | text (t : String)
  | tool_use (name : String)
  | tool_result (content : String)
  | other
deriving DecidableEq

/-- The `content` field of a message payload: either a plain value
(already string-coerced, as `str(content)` in the source) or a list of
blocks. -/
inductive Content
  | str (s : String)
  | blocks (bs : List Block)
deriving DecidableEq

/-- A truthy message object (`message_obj`), with its `role`, `content`
and `model` fields (each `""` when absent). -/
structure MessageObj where
  role : String
  content : Content
  model : String
deriving DecidableEq

/-- One iteration of the block loop of `extract_content`: a text block
appends its text to `text_parts`, a tool-use block appends its name to
`tool_names`, a tool-result block appends its content truncated to the
first 500 code points, and any other block is skipped. -/
def extractStep (acc : List String × List String) (b : Block) :
    List String × List String :=
  match b with
  | Block.text t => (acc.1 ++ [t], acc.2)
  | Block.tool_use n => (acc.1, acc.2 ++ [n])
  | Block.tool_result c => (acc.1 ++ [pySlice c 500], acc.2)
  | Block.other => acc

/-- Translation of `extract_content(message_obj)` from
`claude_history.py` (identical in `history_index.py`): returns
`(content, model, tool_names)`.  `none` models a falsy `message_obj`;
when content is a block list the parts are joined with newline
separators. -/
def extract_content : Option MessageObj → String × String × List String
  | none => ("", "", [])
  | some m =>
    match m.content with
    | Content.str s => (s, m.model, [])
    | Content.blocks bs =>
      let r := bs.foldl extractStep ([], [])
      (String.intercalate "\n" r.1, m.model, r.2)

/-- A decoded JSON-object log line's relevant fields, with the types
the input format declares (§6 of the spec: all scalar fields are
strings).  A missing field is `""` (for `type` / `sessionId` this also
covers falsy values, which the source treats like missing ones); a
missing or falsy `message` is `none`. -/
structure Entry where
  type : String
  sessionId : String
  uuid : String
  parentUuid : String
  timestamp : String
  cwd : String
  gitBranch : String
  message : Option MessageObj
deriving DecidableEq

/-- One raw line of a JSONL file, as the source's loop distinguishes
them: `blank` is empty after `strip()`; `malformed` makes `json.loads`
raise `JSONDecodeError` (caught per line); `nonObject` is a line that
is valid JSON but not an object, so `entry.get("type", "")` raises
`AttributeError`, which is caught only by the outer handler and aborts
the whole file; `record` is an object line with the declared field
types. -/
inductive RawLine
  | blank
  | malformed
  | nonObject
  | record (e : Entry)
deriving DecidableEq

/-- Per-line outcome of the loop body of `index_jsonl`:
`Except.error ()` is an exception escaping to the outer handler,
`Except.ok none` a silently skipped line (`continue`), and
`Except.ok (some e)` a retained event record. -/
def processLine : RawLine → Except Unit (Option Entry)
  | RawLine.blank => Except.ok none
  | RawLine.malformed => Except.ok none
  | RawLine.nonObject => Except.error ()
  | RawLine.record e =>
    if e.type = "user" ∨ e.type = "assistant" ∨ e.type = "summary" then
      if e.sessionId = "" then Except.ok none else Except.ok (some e)
    else Except.ok none

/-- Per-session accumulator entry of `session_data` in `index_jsonl`. -/
structure SessData where
  project : String
  cwd : String
  git_branch : String
  first_ts : String
  last_ts : String
  count : Nat
deriving DecidableEq

/-- The `session_data` update for one retained entry:
first sight initializes the record (count 0) and every retained event
overwrites `last_ts` (except the initializing one, which sets both) and
increments `count`.  Python dicts preserve insertion order, so
`session_data` is an insertion-ordered association list. -/
def updateSess (l : List (String × SessData)) (e : Entry) :
    List (String × SessData) :=
  if l.any (fun p => p.1 == e.sessionId) then
    l.map (fun p =>
      if p.1 == e.sessionId then
        (p.1, { p.2 with last_ts := e.timestamp, count := p.2.count + 1 })
      else p)
  else
    l ++ [(e.sessionId,
      { project := e.cwd, cwd := e.cwd, git_branch := e.gitBranch,
        first_ts := e.timestamp, last_ts := e.timestamp, count := 1 })]

/-- A row of the `messages` table (all columns TEXT). -/
structure MsgRow where
  uuid : String
  session_id : String
  parent_uuid : String
  type : String
  role : String
  content : String
  timestamp : String
  model : String
  tool_names : String
deriving DecidableEq

/-- The message dict appended to `messages` for one retained entry. -/
def mkMsg (e : Entry) : MsgRow :=
  let r := extract_content e.message
  { uuid := e.uuid
    session_id := e.sessionId
    parent_uuid := e.parentUuid
    type := e.type
    role := (match e.message with | none => "" | some m => m.role)
    content := r.1
    timestamp := e.timestamp
    model := r.2.1
    tool_names := String.intercalate "," r.2.2 }

/-- The line loop of `index_jsonl`, accumulating `session_data` and
`messages`; `none` models an exception escaping to the outer handler
(the whole file's accumulation is discarded). -/
def parseLines : List RawLine → List (String × SessData) → List MsgRow →
    Option (List (String × SessData) × List MsgRow)
  | [], sd, ms => some (sd, ms)
  | l :: ls, sd, ms =>
    match processLine l with
    | Except.error _ => none
    | Except.ok none => parseLines ls sd ms
    | Except.ok (some e) => parseLines ls (updateSess sd e) (ms ++ [mkMsg e])

/-- A file as the reading loop observes it: `ok lines` is a successful
read; `fail lines` yields `lines` and then raises an I/O error, so the
outer `except` discards everything accumulated so far. -/
inductive FileRead
  | ok (lines : List RawLine)
  | fail (lines : List RawLine)
deriving DecidableEq

/-- The whole `try` block of `index_jsonl` (read + parse + aggregate):
`none` when reading or any line's processing raises. -/
def parsePhase : FileRead → Option (List (String × SessData) × List MsgRow)
  | FileRead.ok ls => parseLines ls [] []
  | FileRead.fail _ => none

/-- A row of the `sessions` table. -/
structure SessRow where
  session_id : String
  project : String
  cwd : String
  git_branch : String
  first_ts : String
  last_ts : String
  message_count : Nat
deriving DecidableEq

/-- The database state: the `sessions` and `messages` tables and the
`messages_fts` full-text index, each as an insertion-ordered list of
rows (`fts` entries are `(uuid, content)` pairs). -/
structure DB where
  sessions : List SessRow
  messages : List MsgRow
  fts : List (String × String)
deriving DecidableEq

/-- The freshly initialized database (`init_db` creates empty tables). -/
def emptyDB : DB := { sessions := [], messages := [], fts := [] }

/-- The `stats` dict threaded through indexing. -/
structure Stats where
  files : Nat
  sessions : Nat
  messages : Nat
  errors : Nat
deriving DecidableEq

/-- The zero-initialized `stats` dict of `cmd_index`. -/
def stats0 : Stats := { files := 0, sessions := 0, messages := 0, errors := 0 }

/-- Lexicographic order on character lists: SQLite's BINARY collation
compares TEXT values byte-wise, and byte order of UTF-8 agrees with
code-point order, so the collation is the lexicographic order on code
points. -/
def charListLe : List Char → List Char → Bool
  | [], _ => true
  | _ :: _, [] => false
  | a :: as, b :: bs => if a = b then charListLe as bs else decide (a < b)

/-- SQLite's TEXT comparison `a <= b` under the default BINARY
collation. -/
def sqliteLe (a b : String) : Bool := charListLe a.data b.data

/-- The SQLite scalar function `MAX(a, b)` on TEXT values. -/
def sqliteMax (a b : String) : String := if sqliteLe a b then b else a

/-- The sessions upsert of `index_jsonl`:
`INSERT INTO sessions ... ON CONFLICT(session_id) DO UPDATE SET
last_ts = MAX(last_ts, excluded.last_ts),
message_count = message_count + excluded.message_count`.
On conflict only `last_ts` and `message_count` change; otherwise the
incoming row is inserted. -/
def upsertSession (sid : String) (d : SessData) (db : DB) : DB :=
  if db.sessions.any (fun r => r.session_id == sid) then
    { db with sessions := db.sessions.map (fun r =>
        if r.session_id == sid then
          { r with last_ts := sqliteMax r.last_ts d.last_ts,
                   message_count := r.message_count + d.count }
        else r) }
  else
    { db with sessions := db.sessions ++
        [{ session_id := sid, project := d.project, cwd := d.cwd,
           git_branch := d.git_branch, first_ts := d.first_ts,
           last_ts := d.last_ts, message_count := d.count }] }

/-- The message insert of `index_jsonl`:
`INSERT OR IGNORE INTO messages ...` together with the
`messages_ai` `AFTER INSERT` trigger of `init_db`, which fires exactly
when a row is actually inserted (an ignored conflicting insert fires no
trigger) and appends `(new.uuid, new.content)` to the index. -/
def insertMessage (m : MsgRow) (db : DB) : DB :=
  if db.messages.any (fun r => r.uuid == m.uuid) then db
  else { db with messages := db.messages ++ [m],
                 fts := db.fts ++ [(m.uuid, m.content)] }

/-- The `Insert sessions` loop of `index_jsonl`: one upsert per
accumulated session, incrementing `stats["sessions"]` each time. -/
def sessFold (sd : List (String × SessData)) (p : DB × Stats) : DB × Stats :=
  sd.foldl
    (fun (p : DB × Stats) x =>
      (upsertSession x.1 x.2 p.1,
       { p.2 with sessions := p.2.sessions + 1 }))
    p

/-- The `Insert messages` loop of `index_jsonl`: one
insert-or-ignore per accumulated message, incrementing
`stats["messages"]` each time (also for ignored duplicates). -/
def insFold (ms : List MsgRow) (p : DB × Stats) : DB × Stats :=
  ms.foldl
    (fun (p : DB × Stats) m =>
      (insertMessage m p.1, { p.2 with messages := p.2.messages + 1 }))
    p

/-- Translation of `index_jsonl(filepath, conn, stats)`: the parse
phase runs first; if it raises, the error counter is incremented and
nothing is written; otherwise the accumulated sessions are upserted,
then the accumulated messages inserted-or-ignored, and
`stats["files"]` is incremented. -/
def index_jsonl (f : FileRead) (db : DB) (stats : Stats) : DB × Stats :=
  match parsePhase f with
  | none => (db, { stats with errors := stats.errors + 1 })
  | some (sd, ms) =>
    let p2 := insFold ms (sessFold sd (db, stats))
    (p2.1, { p2.2 with files := p2.2.files + 1 })

/-- The loop of `cmd_index` over all discovered files (the periodic
`commit` calls do not change the resulting state). -/
def indexFiles (fs : List FileRead) (db : DB) (stats : Stats) : DB × Stats :=
  fs.foldl (fun p f => index_jsonl f p.1 p.2) (db, stats)

/-- SQLite's default case folding for `LIKE`: ASCII upper-case letters
compare equal to their lower-case forms; all other characters compare
byte-wise. -/
def likeFold (c : Char) : Char :=
  if 'A' ≤ c ∧ c ≤ 'Z' then Char.ofNat (c.toNat + 32) else c

/-- SQLite `LIKE` pattern matching (no ESCAPE clause): `%` matches any
sequence of characters, `_` matches exactly one character, and any
other pattern character matches one input character up to ASCII case.
Each step shortens the pattern or the input, so a fuel of
`pattern.length + input.length` steps (supplied by `sqliteLike` below)
always suffices; the fuel only makes the recursion structural. -/
def likeMatch : Nat → List Char → List Char → Bool
  | 0, _, _ => false
  | _ + 1, [], [] => true
  | _ + 1, [], _ :: _ => false
  | f + 1, '%' :: ps, [] => likeMatch f ps []
  | f + 1, '%' :: ps, c :: cs =>
    likeMatch f ps (c :: cs) || likeMatch f ('%' :: ps) cs
  | _ + 1, '_' :: _, [] => false
  | f + 1, '_' :: ps, _ :: cs => likeMatch f ps cs
  | _ + 1, _ :: _, [] => false
  | f + 1, p :: ps, c :: cs =>
    (likeFold p == likeFold c) && likeMatch f ps cs

/-- The SQL expression `s LIKE pattern`. -/
def sqliteLike (pattern s : String) : Bool :=
  likeMatch (pattern.data.length + s.data.length + 1) pattern.data s.data

/-- Ascending-timestamp order on message rows (`ORDER BY timestamp`). -/
def tsAsc (a b : MsgRow) : Prop := sqliteLe a.timestamp b.timestamp = true

/-- Descending-timestamp order on message rows
(`ORDER BY m.timestamp DESC`). -/
def tsDesc (a b : MsgRow) : Prop := sqliteLe b.timestamp a.timestamp = true

instance : DecidableRel tsAsc := fun a b =>
  inferInstanceAs (Decidable (sqliteLe a.timestamp b.timestamp = true))

instance : DecidableRel tsDesc := fun a b =>
  inferInstanceAs (Decidable (sqliteLe b.timestamp a.timestamp = true))

/-- Splitting a character list at spaces (tokenization helper for the
match capability below). -/
def splitWS (cur : List Char) : List Char → List (List Char)
  | [] => [cur.reverse]
  | c :: cs =>
    if c = ' ' then cur.reverse :: splitWS [] cs else splitWS (c :: cur) cs

/-- Modelled from the spec: the full-text engine's match capability —
the storage/index engine is out of scope and "treated as a capability:
exact-match and relevance-ranked text search over a maintained
collection of (key, text) pairs" (§1).  A query matches an index entry
when it occurs as a whitespace-separated token of the stored content;
both search call sites consult the same capability, so only which
entries match (not how) matters to the ordering claims. -/
def ftsMatch (q content : String) : Bool :=
  (splitWS [] content.data).contains q.data

/-- The shared FROM/JOIN/WHERE part of both search queries:
`FROM messages_fts fts JOIN messages m ON fts.uuid = m.uuid
WHERE messages_fts MATCH ?` — every matching index entry joined with
the message rows of equal uuid. -/
def matchRows (db : DB) (q : String) : List MsgRow :=
  (db.fts.filter (fun p => ftsMatch q p.2)).flatMap
    (fun p => db.messages.filter (fun m => m.uuid == p.1))

/-- Translation of the query of `cmd_search` in `claude_history.py`:
matching rows ordered by `m.timestamp DESC`, then `LIMIT ?`. -/
def cmd_search (db : DB) (q : String) (limit : Nat) : List MsgRow :=
  ((matchRows db q).insertionSort tsDesc).take limit

/-- Ascending order by the engine-provided relevance rank
(`ORDER BY rank`; FTS5 rank is ascending-is-best). -/
def rankAsc (rank : String → String → Int) (q : String) (a b : MsgRow) :
    Prop := rank q a.content ≤ rank q b.content

instance (rank : String → String → Int) (q : String) :
    DecidableRel (rankAsc rank q) := fun a b =>
  inferInstanceAs (Decidable (rank q a.content ≤ rank q b.content))

instance (rank : String → String → Int) (q : String) :
    IsTotal MsgRow (rankAsc rank q) :=
  ⟨fun a b => le_total (rank q a.content) (rank q b.content)⟩

instance (rank : String → String → Int) (q : String) :
    IsTrans MsgRow (rankAsc rank q) :=
  ⟨fun _ _ _ h h' => le_trans h h'⟩

/-- Translation of the query of `search` in `history_search.py`:
matching rows ordered by the engine's relevance rank (`ORDER BY rank`),
then `LIMIT ?`.  The rank is the engine capability of §1, passed in as
a scoring function of query and stored content. -/
def search (rank : String → String → Int) (db : DB) (q : String)
    (limit : Nat) : List MsgRow :=
  ((matchRows db q).insertionSort (rankAsc rank q)).take limit

/-- Display truncation of `show_session` in `history_search.py`:
content longer than 800 characters is cut to its first 800 with the
marker `"..."` appended. -/
def displayContent (s : String) : String :=
  if s.length > 800 then pySlice s 800 ++ "..." else s

/-- One displayed message of `show_session`: the selected columns, with
`content` already display-truncated (the source's `role or type`
fallback happens at print time and is kept as the raw columns here). -/
structure ShownMsg where
  type : String
  role : String
  content : String
  timestamp : String
deriving DecidableEq

/-- The result of `show_session`: an explicit not-found report when no
stored session id LIKE-matches the prefix pattern, or the resolved
session id with its displayed messages. -/
inductive ShowResult
  | notFound (pfx : String)
  | found (session_id : String) (msgs : List ShownMsg)
deriving DecidableEq

/-- Translation of `show_session(session_prefix, limit)` in
`history_search.py`: `fetchone` on
`SELECT ... FROM sessions WHERE session_id LIKE '<pfx>%'` resolves to
the first stored session whose id matches the pattern; its messages
are selected `ORDER BY timestamp LIMIT ?` and displayed with 800-char
truncation. -/
def show_session (db : DB) (pfx : String) (limit : Nat) : ShowResult :=
  match db.sessions.find? (fun r => sqliteLike (pfx ++ "%") r.session_id) with
  | none => ShowResult.notFound pfx
  | some sess =>
    let msgs :=
      (((db.messages.filter
          (fun m => m.session_id == sess.session_id)).insertionSort
            tsAsc).take limit)
    ShowResult.found sess.session_id
      (msgs.map (fun m =>
        { type := m.type, role := m.role,
          content := displayContent m.content, timestamp := m.timestamp }))

/-! Derived predicates and spec-side reference definitions used by the
claim statements. -/

/-- Whether a message row with the given uuid is present
(the duplicate test of `INSERT OR IGNORE`). -/
def memUuid (db : DB) (u : String) : Bool :=
  db.messages.any (fun r => r.uuid == u)

/-- The messages table carries no duplicate uuid (its declared
`PRIMARY KEY`). -/
def uuidNodup (db : DB) : Prop :=
  (db.messages.map (fun m => m.uuid)).Nodup

/-- The full-text index mirrors the messages table row for row: its
entries are exactly the `(uuid, content)` projections of the messages
rows, in order. -/
def ftsMirror (db : DB) : Prop :=
  db.fts = db.messages.map (fun m => (m.uuid, m.content))

/-- The sessions-table row for a session id, as `fetchone` /
`ON CONFLICT` observe it. -/
def sessionRow (db : DB) (sid : String) : Option SessRow :=
  db.sessions.find? (fun r => r.session_id == sid)

/-- The stored `message_count` of a session, when the session exists. -/
def msgCount (db : DB) (sid : String) : Option Nat :=
  (sessionRow db sid).map (fun r => r.message_count)

/-- Invariant of claim C6: every stored session row satisfies
`first_ts ≤ last_ts` under the string order of the timestamp field. -/
def SessInv (db : DB) : Prop :=
  ∀ r ∈ db.sessions, sqliteLe r.first_ts r.last_ts = true

/-- A file whose per-pass session summaries all come out with
`first_ts ≤ last_ts` — this is what holds when each session's retained
events appear in nondecreasing timestamp order within the file. -/
def summariesOK (f : FileRead) : Prop :=
  ∀ sd ms sid d, parsePhase f = some (sd, ms) → (sid, d) ∈ sd →
    sqliteLe d.first_ts d.last_ts = true

/-- The entries of a file's lines that the parser retains (in order);
every other line is skipped. -/
def retainedEntries (ls : List RawLine) : List Entry :=
  ls.filterMap (fun l =>
    match processLine l with
    | Except.ok (some e) => some e
    | _ => none)

/-- Aggregation of a list of retained entries into `session_data` and
`messages`, exactly the per-entry work of the parse loop. -/
def aggEntries (es : List Entry) (sd : List (String × SessData))
    (ms : List MsgRow) : List (String × SessData) × List MsgRow :=
  es.foldl (fun p e => (updateSess p.1 e, p.2 ++ [mkMsg e])) (sd, ms)

/-- Text contributions of a block list as the spec words them (§4.1):
a text block contributes its text, a tool-result block its content
truncated to the first 500 characters when longer, a tool-invocation
block nothing. -/
def specTextParts : List Block → List String
  | [] => []
  | Block.text t :: bs => t :: specTextParts bs
  | Block.tool_use _ :: bs => specTextParts bs
  | Block.tool_result c :: bs =>
    (if 500 < c.length then pySlice c 500 else c) :: specTextParts bs
  | Block.other :: bs => specTextParts bs

/-- Tool names of a block list as the spec words them (§4.1): the
names of the tool-invocation blocks in block order, no deduplication. -/
def specToolNames : List Block → List String
  | [] => []
  | Block.tool_use n :: bs => n :: specToolNames bs
  | Block.text _ :: bs => specToolNames bs
  | Block.tool_result _ :: bs => specToolNames bs
  | Block.other :: bs => specToolNames bs

/-! Concrete inputs used by witnesses and counterexamples. -/

/-- A well-formed user event record. -/
def eGood : Entry :=
  { type := "user", sessionId := "s1", uuid := "u1", parentUuid := "",
    timestamp := "t1", cwd := "/p", gitBranch := "main",
    message := some { role := "user", content := Content.str "hello world",
                      model := "" } }

/-- A second well-formed record of the same session, with a strictly
smaller timestamp than `eGood` and a distinct uuid. -/
def eEarlier : Entry :=
  { type := "assistant", sessionId := "s1", uuid := "u2", parentUuid := "u1",
    timestamp := "t0", cwd := "/p", gitBranch := "main",
    message := some { role := "assistant", content := Content.str "hi there",
                      model := "m" } }

/-- A record whose type is outside {user, assistant, summary}. -/
def eBadType : Entry :=
  { type := "system", sessionId := "s1", uuid := "u3", parentUuid := "",
    timestamp := "t2", cwd := "/p", gitBranch := "main", message := none }

/-- A record lacking a sessionId. -/
def eNoSession : Entry :=
  { type := "user", sessionId := "", uuid := "u4", parentUuid := "",
    timestamp := "t3", cwd := "/p", gitBranch := "main", message := none }

/-- The session summary the parse phase accumulates for a file whose
only line is `eGood`. -/
def dGood : SessData :=
  { project := "/p", cwd := "/p", git_branch := "main",
    first_ts := "t1", last_ts := "t1", count := 1 }

/-- A pre-existing stored row for session `"s1"`. -/
def rowS1 : SessRow :=
  { session_id := "s1", project := "/p", cwd := "/p", git_branch := "main",
    first_ts := "t0", last_ts := "t0", message_count := 5 }

/-- A database already holding `rowS1`. -/
def dbS1 : DB := { sessions := [rowS1], messages := [], fts := [] }

/-- A message row matching the query `"hello"`, with the older
timestamp and the shorter content. -/
def mA : MsgRow :=
  { uuid := "a", session_id := "s1", parent_uuid := "", type := "user",
    role := "user", content := "hello", timestamp := "1", model := "",
    tool_names := "" }

/-- A second matching message row, with the newer timestamp and the
longer content. -/
def mB : MsgRow :=
  { uuid := "b", session_id := "s1", parent_uuid := "", type := "assistant",
    role := "assistant", content := "hello world", timestamp := "2",
    model := "", tool_names := "" }

/-- A well-formed database holding `mA` and `mB` with a mirrored
index. -/
def dbAB : DB :=
  { sessions := [], messages := [mA, mB],
    fts := [("a", "hello"), ("b", "hello world")] }

/-- A database with one session `"s1"` and its two messages stored out
of timestamp order. -/
def dbShow : DB := { sessions := [rowS1], messages := [mB, mA], fts := [] }

/-- The display row of `mA`. -/
def shownA : ShownMsg :=
  { type := "user", role := "user", content := "hello", timestamp := "1" }

/-- The display row of `mB`. -/
def shownB : ShownMsg :=
  { type := "assistant", role := "assistant", content := "hello world", timestamp := "2" }

/-! Order theory of the SQLite BINARY collation. -/

theorem charListLe_refl (l : List Char) : charListLe l l = true := by
  induction l with
  | nil => rfl
  | cons a l ih =>
    unfold charListLe
    rw [if_pos rfl]
    exact ih

theorem charListLe_total (l₁ l₂ : List Char) :
    charListLe l₁ l₂ = true ∨ charListLe l₂ l₁ = true := by
  induction l₁ generalizing l₂ with
  | nil => exact Or.inl rfl
  | cons a as ih =>
    cases l₂ with
    | nil => exact Or.inr rfl
    | cons b bs =>
      unfold charListLe
      by_cases hab : a = b
      · rw [if_pos hab, if_pos hab.symm]
        exact ih bs
      · rw [if_neg hab, if_neg (fun hc => hab hc.symm)]
        rcases lt_or_gt_of_ne hab with hlt | hgt
        · exact Or.inl (by simpa using hlt)
        · exact Or.inr (by simpa using hgt)

theorem charListLe_trans (l₁ l₂ l₃ : List Char)
    (h1 : charListLe l₁ l₂ = true) (h2 : charListLe l₂ l₃ = true) :
    charListLe l₁ l₃ = true := by
  induction l₁ generalizing l₂ l₃ with
  | nil => rfl
  | cons a as ih =>
    cases l₂ with
    | nil => cases h1
    | cons b bs =>
      cases l₃ with
      | nil => cases h2
      | cons c cs =>
        unfold charListLe at h1 h2 ⊢
        by_cases hab : a = b
        · subst hab
          rw [if_pos rfl] at h1
          by_cases hac : a = c
          · rw [if_pos hac]
            rw [if_pos hac] at h2
            exact ih bs cs h1 h2
          · rw [if_neg hac]
            rw [if_neg hac] at h2
            exact h2
        · rw [if_neg hab] at h1
          by_cases hbc : b = c
          · subst hbc
            rw [if_neg hab]
            exact h1
          · rw [if_neg hbc] at h2
            have hlt1 : a < b := by simpa using h1
            have hlt2 : b < c := by simpa using h2
            have hlt3 : a < c := lt_trans hlt1 hlt2
            rw [if_neg (ne_of_lt hlt3)]
            simpa using hlt3

theorem sqliteLe_refl (a : String) : sqliteLe a a = true :=
  charListLe_refl a.data

theorem sqliteLe_total (a b : String) :
    sqliteLe a b = true ∨ sqliteLe b a = true :=
  charListLe_total a.data b.data

theorem sqliteLe_trans (a b c : String) (h1 : sqliteLe a b = true)
    (h2 : sqliteLe b c = true) : sqliteLe a c = true :=
  charListLe_trans a.data b.data c.data h1 h2

theorem sqliteLe_max_left (a b : String) :
    sqliteLe a (sqliteMax a b) = true := by
  unfold sqliteMax
  split
  · assumption
  · exact sqliteLe_refl a

/-! Basic lemmas about the store operations. -/

theorem upsertSession_messages (sid : String) (d : SessData) (db : DB) :
    (upsertSession sid d db).messages = db.messages := by
  unfold upsertSession; split <;> rfl

theorem upsertSession_fts (sid : String) (d : SessData) (db : DB) :
    (upsertSession sid d db).fts = db.fts := by
  unfold upsertSession; split <;> rfl

theorem insertMessage_sessions (m : MsgRow) (db : DB) :
    (insertMessage m db).sessions = db.sessions := by
  unfold insertMessage; split <;> rfl

theorem sessFold_messages (sd : List (String × SessData)) (p : DB × Stats) :
    (sessFold sd p).1.messages = p.1.messages := by
  induction sd generalizing p with
  | nil => rfl
  | cons x sd ih =>
    simp only [sessFold, List.foldl_cons] at *
    rw [ih]
    exact upsertSession_messages _ _ _

theorem sessFold_fts (sd : List (String × SessData)) (p : DB × Stats) :
    (sessFold sd p).1.fts = p.1.fts := by
  induction sd generalizing p with
  | nil => rfl
  | cons x sd ih =>
    simp only [sessFold, List.foldl_cons] at *
    rw [ih]
    exact upsertSession_fts _ _ _

theorem insFold_sessions (ms : List MsgRow) (p : DB × Stats) :
    (insFold ms p).1.sessions = p.1.sessions := by
  induction ms generalizing p with
  | nil => rfl
  | cons m ms ih =>
    simp only [insFold, List.foldl_cons] at *
    rw [ih]
    exact insertMessage_sessions _ _

theorem insertMessage_of_memUuid (m : MsgRow) (db : DB)
    (h : memUuid db m.uuid = true) : insertMessage m db = db := by
  unfold insertMessage
  rw [memUuid] at h
  simp [h]

theorem memUuid_insertMessage_self (m : MsgRow) (db : DB) :
    memUuid (insertMessage m db) m.uuid = true := by
  unfold insertMessage memUuid
  split
  · assumption
  · simp

theorem memUuid_insertMessage_mono (m : MsgRow) (db : DB) (u : String)
    (h : memUuid db u = true) : memUuid (insertMessage m db) u = true := by
  unfold insertMessage memUuid at *
  split
  · exact h
  · simp only [List.any_append, h, Bool.true_or]

theorem memUuid_insFold_mono (ms : List MsgRow) (p : DB × Stats) (u : String)
    (h : memUuid p.1 u = true) : memUuid (insFold ms p).1 u = true := by
  induction ms generalizing p with
  | nil => exact h
  | cons m ms ih =>
    simp only [insFold, List.foldl_cons] at *
    exact ih _ (memUuid_insertMessage_mono _ _ _ h)

theorem memUuid_insFold_of_mem (ms : List MsgRow) (p : DB × Stats)
    (m : MsgRow) (h : m ∈ ms) : memUuid (insFold ms p).1 m.uuid = true := by
  induction ms generalizing p with
  | nil => cases h
  | cons m' ms ih =>
    simp only [insFold, List.foldl_cons]
    rcases List.mem_cons.1 h with h1 | h2
    · subst h1
      exact memUuid_insFold_mono _ _ _ (memUuid_insertMessage_self _ _)
    · exact ih _ h2

theorem insFold_of_all_mem (ms : List MsgRow) (p : DB × Stats)
    (h : ∀ m ∈ ms, memUuid p.1 m.uuid = true) : (insFold ms p).1 = p.1 := by
  induction ms generalizing p with
  | nil => rfl
  | cons m ms ih =>
    simp only [insFold, List.foldl_cons]
    have hm : memUuid p.1 m.uuid = true := h m (List.mem_cons_self _ _)
    have he : insertMessage m p.1 = p.1 := insertMessage_of_memUuid _ _ hm
    rw [he]
    exact ih _ (fun m' hm' => h m' (List.mem_cons_of_mem _ hm'))

theorem memUuid_eq_of_messages_eq (db db' : DB) (u : String)
    (h : db.messages = db'.messages) : memUuid db u = memUuid db' u := by
  unfold memUuid
  rw [h]

/-! Claim C7: re-inserting an existing uuid is a successful no-op. -/

/-- C7: for every message whose uuid already exists in the messages
table, re-inserting it leaves the database exactly as it was — never an
error, never an overwrite — even when the incoming row's other fields
differ from the stored ones. -/
theorem claimC7 (db : DB) (m mStored : MsgRow)
    (h1 : mStored ∈ db.messages) (h2 : mStored.uuid = m.uuid) :
    insertMessage m db = db := by
  apply insertMessage_of_memUuid
  unfold memUuid
  rw [List.any_eq_true]
  exact ⟨mStored, h1, by rw [h2]; exact beq_self_eq_true _⟩

/-- Concrete check of C7: the stored row and the incoming row share
uuid `"u1"` but differ in content; the insert changes nothing. -/
theorem claimC7_witness :
    insertMessage
      { uuid := "u1", session_id := "s2", parent_uuid := "", type := "user",
        role := "user", content := "changed content", timestamp := "t9",
        model := "", tool_names := "" }
      { sessions := [],
        messages := [{ uuid := "u1", session_id := "s1", parent_uuid := "",
                       type := "user", role := "user", content := "original",
                       timestamp := "t1", model := "", tool_names := "" }],
        fts := [("u1", "original")] } =
      { sessions := [],
        messages := [{ uuid := "u1", session_id := "s1", parent_uuid := "",
                       type := "user", role := "user", content := "original",
                       timestamp := "t1", model := "", tool_names := "" }],
        fts := [("u1", "original")] } :=
  claimC7 _ _
    { uuid := "u1", session_id := "s1", parent_uuid := "", type := "user",
      role := "user", content := "original", timestamp := "t1", model := "",
      tool_names := "" }
    (by simp) (by rfl)

/-! Claim C10: a file whose read or processing raises writes nothing. -/

/-- C10: per-file ingestion is atomic with respect to read/processing
failure — all parsing and aggregation happens before any durable
write, so when the parse phase of a file raises, the database is
returned exactly as it was and only the error counter is incremented. -/
theorem claimC10 (f : FileRead) (db : DB) (stats : Stats)
    (h : parsePhase f = none) :
    index_jsonl f db stats = (db, { stats with errors := stats.errors + 1 }) := by
  unfold index_jsonl
  rw [h]

/-- Concrete check of C10: a file whose read raises after yielding one
good record leaves a non-empty database untouched and bumps the error
counter from 0 to 1. -/
theorem claimC10_witness :
    index_jsonl (FileRead.fail [RawLine.record eGood])
      { sessions := [], messages := [], fts := [("u0", "old")] } stats0 =
      ({ sessions := [], messages := [], fts := [("u0", "old")] },
       { files := 0, sessions := 0, messages := 0, errors := 1 }) :=
  claimC10 _ _ _ rfl

/-! Preservation of the uuid-key and index-mirror invariants. -/

theorem uuidNodup_insertMessage (m : MsgRow) (db : DB)
    (h : uuidNodup db) : uuidNodup (insertMessage m db) := by
  unfold insertMessage
  split
  · exact h
  · rename_i hn
    unfold uuidNodup at *
    simp only [List.map_append, List.map_cons, List.map_nil]
    rw [List.nodup_append]
    refine ⟨h, List.nodup_singleton _, ?_⟩
    intro a ha hb
    simp only [List.mem_singleton] at hb
    subst hb
    rcases List.mem_map.1 ha with ⟨r, hr, hru⟩
    exact hn (List.any_eq_true.2 ⟨r, hr, by rw [hru]; exact beq_self_eq_true _⟩)

theorem ftsMirror_insertMessage (m : MsgRow) (db : DB)
    (h : ftsMirror db) : ftsMirror (insertMessage m db) := by
  unfold insertMessage
  split
  · exact h
  · unfold ftsMirror at *
    simp only [List.map_append, List.map_cons, List.map_nil, h]

theorem uuidNodup_insFold (ms : List MsgRow) (p : DB × Stats)
    (h : uuidNodup p.1) : uuidNodup (insFold ms p).1 := by
  induction ms generalizing p with
  | nil => exact h
  | cons m ms ih =>
    simp only [insFold, List.foldl_cons] at *
    exact ih _ (uuidNodup_insertMessage _ _ h)

theorem ftsMirror_insFold (ms : List MsgRow) (p : DB × Stats)
    (h : ftsMirror p.1) : ftsMirror (insFold ms p).1 := by
  induction ms generalizing p with
  | nil => exact h
  | cons m ms ih =>
    simp only [insFold, List.foldl_cons] at *
    exact ih _ (ftsMirror_insertMessage _ _ h)

theorem uuidNodup_sessFold (sd : List (String × SessData)) (p : DB × Stats)
    (h : uuidNodup p.1) : uuidNodup (sessFold sd p).1 := by
  unfold uuidNodup at *
  rw [sessFold_messages]
  exact h

theorem ftsMirror_sessFold (sd : List (String × SessData)) (p : DB × Stats)
    (h : ftsMirror p.1) : ftsMirror (sessFold sd p).1 := by
  unfold ftsMirror at *
  rw [sessFold_messages, sessFold_fts]
  exact h

theorem uuidNodup_index_jsonl (f : FileRead) (db : DB) (stats : Stats)
    (h : uuidNodup db) : uuidNodup (index_jsonl f db stats).1 := by
  unfold index_jsonl
  cases hp : parsePhase f with
  | none => exact h
  | some v =>
    exact uuidNodup_insFold _ _ (uuidNodup_sessFold _ _ h)

theorem ftsMirror_index_jsonl (f : FileRead) (db : DB) (stats : Stats)
    (h : ftsMirror db) : ftsMirror (index_jsonl f db stats).1 := by
  unfold index_jsonl
  cases hp : parsePhase f with
  | none => exact h
  | some v =>
    exact ftsMirror_insFold _ _ (ftsMirror_sessFold _ _ h)

theorem ftsKeysNodup_of_mirror (db : DB) (hnd : uuidNodup db)
    (hm : ftsMirror db) : (db.fts.map Prod.fst).Nodup := by
  unfold ftsMirror at hm
  unfold uuidNodup at hnd
  rw [hm, List.map_map]
  exact hnd

/-! Claim C1: indexing the same file twice is idempotent on the
messages table and the full-text index. -/

/-- C1: for every log file and every well-formed database state (uuids
unique, index mirroring the table — as holds for every state this
program builds), indexing the file a second time leaves the messages
table and the full-text index exactly as they were after the first
run; and after the first run there are no duplicate message rows and
no duplicate index postings for any uuid. -/
theorem claimC1 (f : FileRead) (db : DB) (s1 s2 : Stats)
    (hnd : uuidNodup db) (hmir : ftsMirror db) :
    (index_jsonl f (index_jsonl f db s1).1 s2).1.messages =
      (index_jsonl f db s1).1.messages ∧
    (index_jsonl f (index_jsonl f db s1).1 s2).1.fts =
      (index_jsonl f db s1).1.fts ∧
    uuidNodup (index_jsonl f db s1).1 ∧
    ((index_jsonl f db s1).1.fts.map Prod.fst).Nodup := by
  have hnd1 := uuidNodup_index_jsonl f db s1 hnd
  have hmir1 := ftsMirror_index_jsonl f db s1 hmir
  refine ⟨?_, ?_, hnd1, ftsKeysNodup_of_mirror _ hnd1 hmir1⟩ <;>
  · cases hp : parsePhase f with
    | none =>
      simp only [index_jsonl, hp]
    | some v =>
      obtain ⟨sd, ms⟩ := v
      simp only [index_jsonl, hp]
      have hall : ∀ m ∈ ms,
          memUuid (sessFold sd ((insFold ms (sessFold sd (db, s1))).1, s2)).1
            m.uuid = true := by
        intro m hm
        rw [memUuid_eq_of_messages_eq _ _ _ (sessFold_messages _ _)]
        exact memUuid_insFold_of_mem _ _ _ hm
      rw [insFold_of_all_mem _ _ hall]
      first
        | exact sessFold_messages _ _
        | exact sessFold_fts _ _

/-- Concrete check of C1: indexing a one-record file twice from the
fresh database, the second run changes neither the messages table nor
the index, and no uuid is duplicated. -/
theorem claimC1_witness :
    (index_jsonl (FileRead.ok [RawLine.record eGood])
        (index_jsonl (FileRead.ok [RawLine.record eGood]) emptyDB stats0).1
        stats0).1.messages =
      (index_jsonl (FileRead.ok [RawLine.record eGood]) emptyDB
        stats0).1.messages ∧
    (index_jsonl (FileRead.ok [RawLine.record eGood])
        (index_jsonl (FileRead.ok [RawLine.record eGood]) emptyDB stats0).1
        stats0).1.fts =
      (index_jsonl (FileRead.ok [RawLine.record eGood]) emptyDB stats0).1.fts ∧
    uuidNodup (index_jsonl (FileRead.ok [RawLine.record eGood]) emptyDB
        stats0).1 ∧
    ((index_jsonl (FileRead.ok [RawLine.record eGood]) emptyDB
        stats0).1.fts.map Prod.fst).Nodup :=
  claimC1 (FileRead.ok [RawLine.record eGood]) emptyDB stats0 stats0
    (by simp [uuidNodup, emptyDB]) (by rfl)

/-! Claim C2: the full-text index is in bijection with the messages
table after any sequence of indexing operations. -/

theorem uuidNodup_indexFiles (fs : List FileRead) (db : DB) (stats : Stats)
    (h : uuidNodup db) : uuidNodup (indexFiles fs db stats).1 := by
  induction fs generalizing db stats with
  | nil => exact h
  | cons f fs ih =>
    simp only [indexFiles, List.foldl_cons] at *
    exact ih _ _ (uuidNodup_index_jsonl f db stats h)

theorem ftsMirror_indexFiles (fs : List FileRead) (db : DB) (stats : Stats)
    (h : ftsMirror db) : ftsMirror (indexFiles fs db stats).1 := by
  induction fs generalizing db stats with
  | nil => exact h
  | cons f fs ih =>
    simp only [indexFiles, List.foldl_cons] at *
    exact ih _ _ (ftsMirror_index_jsonl f db stats h)

theorem filter_uuid_length_le_one (ms : List MsgRow) (u : String)
    (h : (ms.map (fun m => m.uuid)).Nodup) :
    (ms.filter (fun m => m.uuid == u)).length ≤ 1 := by
  induction ms with
  | nil => simp
  | cons m ms ih =>
    simp only [List.map_cons, List.nodup_cons] at h
    obtain ⟨hm, hnd⟩ := h
    by_cases hb : (m.uuid == u) = true
    · have hu : m.uuid = u := eq_of_beq hb
      have hnil : ms.filter (fun r => r.uuid == u) = [] := by
        rw [List.filter_eq_nil_iff]
        intro r hr hc
        apply hm
        rw [List.mem_map]
        exact ⟨r, hr, by rw [eq_of_beq hc, hu]⟩
      simp only [List.filter_cons, hb, if_true, hnil, List.length_cons,
        List.length_nil]
      exact Nat.le_refl 1
    · have hb' : (m.uuid == u) = false := by simpa using hb
      simp only [List.filter_cons, hb', Bool.false_eq_true, if_false]
      exact ih hnd

/-- C2: after any sequence of indexing operations from the fresh
database (repeats included), the index entries keyed by any uuid are
exactly the `(uuid, content)` projections of the messages rows with
that uuid, of which there is at most one — so every uuid present in
messages has exactly one index entry holding that message's content,
and a uuid absent from messages has none; moreover an index write
fires if and only if the canonical insert actually added a new row. -/
theorem claimC2 (fs : List FileRead) (u : String) :
    ((indexFiles fs emptyDB stats0).1.fts.filter (fun p => p.1 == u)) =
      ((indexFiles fs emptyDB stats0).1.messages.filter
        (fun m => m.uuid == u)).map (fun m => (m.uuid, m.content)) ∧
    ((indexFiles fs emptyDB stats0).1.messages.filter
        (fun m => m.uuid == u)).length ≤ 1 ∧
    ∀ (m : MsgRow) (db : DB),
      ((insertMessage m db).fts = db.fts ↔
        (insertMessage m db).messages = db.messages) := by
  have hnd : uuidNodup (indexFiles fs emptyDB stats0).1 :=
    uuidNodup_indexFiles fs emptyDB stats0 (by simp [uuidNodup, emptyDB])
  have hmir : ftsMirror (indexFiles fs emptyDB stats0).1 :=
    ftsMirror_indexFiles fs emptyDB stats0 (by rfl)
  refine ⟨?_, filter_uuid_length_le_one _ _ hnd, ?_⟩
  · unfold ftsMirror at hmir
    rw [hmir, List.filter_map]
    rfl
  · intro m db
    unfold insertMessage
    split
    · exact ⟨fun _ => rfl, fun _ => rfl⟩
    · constructor
      · intro h
        exact absurd (congrArg List.length h) (by simp)
      · intro h
        exact absurd (congrArg List.length h) (by simp)

/-! Lemmas about the session upsert, towards claims C5 and C6. -/

theorem find?_cons_eq (p : α → Bool) (a : α) (l : List α) :
    (a :: l).find? p = if p a then some a else l.find? p := by
  by_cases h : p a
  · rw [List.find?_cons_of_pos _ h, if_pos h]
  · rw [List.find?_cons_of_neg _ h, if_neg h]

theorem find?_map_if (l : List SessRow) (sid : String) (u : SessRow → SessRow)
    (hu : ∀ r, (u r).session_id = r.session_id) :
    (l.map (fun r => if r.session_id == sid then u r else r)).find?
      (fun r => r.session_id == sid) =
    (l.find? (fun r => r.session_id == sid)).map u := by
  induction l with
  | nil => rfl
  | cons x l ih =>
    simp only [List.map_cons]
    by_cases hx : (x.session_id == sid) = true
    · rw [if_pos hx, find?_cons_eq _ (u x) _, find?_cons_eq _ x l]
      simp only [hu x, hx, if_true]
      rfl
    · rw [if_neg hx, find?_cons_eq _ x _, find?_cons_eq _ x l]
      simp only [hx, Bool.false_eq_true, if_false]
      exact ih

theorem find?_map_if_other (l : List SessRow) (sid' sid : String)
    (u : SessRow → SessRow) (hu : ∀ r, (u r).session_id = r.session_id)
    (h : sid' ≠ sid) :
    (l.map (fun r => if r.session_id == sid' then u r else r)).find?
      (fun r => r.session_id == sid) =
    l.find? (fun r => r.session_id == sid) := by
  induction l with
  | nil => rfl
  | cons x l ih =>
    simp only [List.map_cons]
    by_cases hx : (x.session_id == sid') = true
    · have hxs : (x.session_id == sid) = false :=
        beq_eq_false_iff_ne.2 (by rw [eq_of_beq hx]; exact h)
      rw [if_pos hx, find?_cons_eq _ (u x) _, find?_cons_eq _ x l]
      simp only [hu x, hxs, Bool.false_eq_true, if_false]
      exact ih
    · rw [if_neg hx, find?_cons_eq _ x _, find?_cons_eq _ x l]
      by_cases hxs : (x.session_id == sid) = true
      · simp only [hxs, if_true]
      · simp only [hxs, Bool.false_eq_true, if_false]
        exact ih

theorem sessionRow_upsert_of_some (db : DB) (sid : String) (d : SessData)
    (r : SessRow) (h : sessionRow db sid = some r) :
    sessionRow (upsertSession sid d db) sid =
      some { r with last_ts := sqliteMax r.last_ts d.last_ts,
                    message_count := r.message_count + d.count } := by
  unfold sessionRow at h
  have hpr : (r.session_id == sid) = true := by
    have := List.find?_some h
    exact this
  have hany : db.sessions.any (fun r => r.session_id == sid) = true :=
    List.any_eq_true.2 ⟨r, List.mem_of_find?_eq_some h, hpr⟩
  unfold sessionRow
  unfold upsertSession
  simp only [hany, if_true]
  rw [find?_map_if db.sessions sid
    (fun r => { r with last_ts := sqliteMax r.last_ts d.last_ts,
                       message_count := r.message_count + d.count })
    (fun _ => rfl), h]
  rfl

theorem sessionRow_upsert_of_none (db : DB) (sid : String) (d : SessData)
    (h : sessionRow db sid = none) :
    sessionRow (upsertSession sid d db) sid =
      some { session_id := sid, project := d.project, cwd := d.cwd,
             git_branch := d.git_branch, first_ts := d.first_ts,
             last_ts := d.last_ts, message_count := d.count } := by
  unfold sessionRow at h
  have hany : db.sessions.any (fun r => r.session_id == sid) = false := by
    rw [← Bool.not_eq_true, List.any_eq_true]
    rintro ⟨r, hr, hpr⟩
    have := List.find?_eq_none.1 h r hr
    exact this hpr
  unfold sessionRow
  unfold upsertSession
  simp only [hany, Bool.false_eq_true, if_false]
  rw [List.find?_append, h]
  simp only [Option.none_or]
  exact List.find?_cons_of_pos _ (beq_self_eq_true sid)

theorem sessionRow_upsert_other (db : DB) (sid' : String) (d : SessData)
    (sid : String) (h : sid' ≠ sid) :
    sessionRow (upsertSession sid' d db) sid = sessionRow db sid := by
  unfold sessionRow upsertSession
  split
  · exact find?_map_if_other db.sessions sid' sid
      (fun r => { r with last_ts := sqliteMax r.last_ts d.last_ts,
                         message_count := r.message_count + d.count })
      (fun _ => rfl) h
  · rw [List.find?_append]
    have hnew : (List.find? (fun (r : SessRow) => r.session_id == sid)
        [{ session_id := sid', project := d.project, cwd := d.cwd,
           git_branch := d.git_branch, first_ts := d.first_ts,
           last_ts := d.last_ts, message_count := d.count }]) = none := by
      rw [find?_cons_eq]
      simp only [beq_eq_false_iff_ne.2 h, Bool.false_eq_true, if_false]
      rfl
    rw [hnew, Option.or_none]

theorem msgCount_upsert_self (db : DB) (sid : String) (d : SessData) :
    msgCount (upsertSession sid d db) sid =
      some ((msgCount db sid).getD 0 + d.count) := by
  unfold msgCount
  cases h : sessionRow db sid with
  | none =>
    rw [sessionRow_upsert_of_none db sid d h]
    simp
  | some r =>
    rw [sessionRow_upsert_of_some db sid d r h]
    rfl

theorem msgCount_upsert_other (db : DB) (sid' : String) (d : SessData)
    (sid : String) (h : sid' ≠ sid) :
    msgCount (upsertSession sid' d db) sid = msgCount db sid := by
  unfold msgCount
  rw [sessionRow_upsert_other db sid' d sid h]

theorem sessFold_cons (x : String × SessData) (sd : List (String × SessData))
    (p : DB × Stats) :
    sessFold (x :: sd) p =
      sessFold sd (upsertSession x.1 x.2 p.1,
        { p.2 with sessions := p.2.sessions + 1 }) := rfl

theorem msgCount_sessFold_other (sd : List (String × SessData))
    (p : DB × Stats) (sid : String) (h : sid ∉ sd.map Prod.fst) :
    msgCount (sessFold sd p).1 sid = msgCount p.1 sid := by
  induction sd generalizing p with
  | nil => rfl
  | cons x sd ih =>
    simp only [List.map_cons, List.mem_cons, not_or] at h
    rw [sessFold_cons, ih _ h.2]
    exact msgCount_upsert_other _ _ _ _ (fun hc => h.1 hc.symm)

theorem msgCount_sessFold_mem (sd : List (String × SessData))
    (p : DB × Stats) (sid : String) (d : SessData)
    (hnd : (sd.map Prod.fst).Nodup) (hm : (sid, d) ∈ sd) :
    msgCount (sessFold sd p).1 sid =
      some ((msgCount p.1 sid).getD 0 + d.count) := by
  induction sd generalizing p with
  | nil => cases hm
  | cons x sd ih =>
    simp only [List.map_cons, List.nodup_cons] at hnd
    rw [sessFold_cons]
    rcases List.mem_cons.1 hm with h1 | h2
    · have hx1 : x.1 = sid := by rw [← h1]
      have hx2 : x.2 = d := by rw [← h1]
      have hnot : sid ∉ sd.map Prod.fst := by
        rw [← hx1]
        exact hnd.1
      rw [msgCount_sessFold_other sd _ sid hnot, hx1, hx2]
      exact msgCount_upsert_self _ _ _
    · have hsid : sid ∈ sd.map Prod.fst :=
        List.mem_map.2 ⟨(sid, d), h2, rfl⟩
      have hne : x.1 ≠ sid := fun hc => hnd.1 (hc ▸ hsid)
      rw [ih _ hnd.2 h2, msgCount_upsert_other _ _ _ _ hne]

theorem msgCount_insFold (ms : List MsgRow) (p : DB × Stats) (sid : String) :
    msgCount (insFold ms p).1 sid = msgCount p.1 sid := by
  unfold msgCount sessionRow
  rw [insFold_sessions]

/-! Nodup keys of the per-pass session accumulator. -/

theorem updateSess_keys_nodup (l : List (String × SessData)) (e : Entry)
    (h : (l.map Prod.fst).Nodup) : ((updateSess l e).map Prod.fst).Nodup := by
  unfold updateSess
  split
  · have : (l.map (fun p =>
        if p.1 == e.sessionId then
          (p.1, { p.2 with last_ts := e.timestamp, count := p.2.count + 1 })
        else p)).map Prod.fst = l.map Prod.fst := by
      rw [List.map_map]
      apply List.map_congr_left
      intro p _
      by_cases hp : (p.1 == e.sessionId) = true
      · rw [Function.comp_apply, if_pos hp]
      · rw [Function.comp_apply, if_neg hp]
    rw [this]
    exact h
  · rename_i hany
    simp only [List.map_append, List.map_cons, List.map_nil]
    rw [List.nodup_append]
    refine ⟨h, List.nodup_singleton _, ?_⟩
    intro a ha hb
    simp only [List.mem_singleton] at hb
    subst hb
    rcases List.mem_map.1 ha with ⟨q, hq, hq1⟩
    exact hany (List.any_eq_true.2 ⟨q, hq, by rw [hq1]; exact beq_self_eq_true _⟩)

theorem parseLines_keys_nodup (ls : List RawLine)
    (sd : List (String × SessData)) (ms : List MsgRow)
    (sd' : List (String × SessData)) (ms' : List MsgRow)
    (h : parseLines ls sd ms = some (sd', ms'))
    (hnd : (sd.map Prod.fst).Nodup) : (sd'.map Prod.fst).Nodup := by
  induction ls generalizing sd ms with
  | nil =>
    simp only [parseLines, Option.some.injEq, Prod.mk.injEq] at h
    rw [← h.1]
    exact hnd
  | cons l ls ih =>
    cases hpl : processLine l with
    | error u =>
      simp only [parseLines, hpl] at h
      cases h
    | ok oe =>
      cases oe with
      | none =>
        simp only [parseLines, hpl] at h
        exact ih _ _ h hnd
      | some e =>
        simp only [parseLines, hpl] at h
        exact ih _ _ h (updateSess_keys_nodup _ _ hnd)

theorem parsePhase_keys_nodup (f : FileRead)
    (sd : List (String × SessData)) (ms : List MsgRow)
    (h : parsePhase f = some (sd, ms)) : (sd.map Prod.fst).Nodup := by
  cases f with
  | ok ls => exact parseLines_keys_nodup ls [] [] sd ms h (by simp)
  | fail ls =>
    simp only [parsePhase] at h
    cases h

theorem msgCount_index_jsonl (f : FileRead) (db : DB) (stats : Stats)
    (sd : List (String × SessData)) (ms : List MsgRow) (sid : String)
    (d : SessData) (hp : parsePhase f = some (sd, ms)) (hm : (sid, d) ∈ sd) :
    msgCount (index_jsonl f db stats).1 sid =
      some ((msgCount db sid).getD 0 + d.count) := by
  simp only [index_jsonl, hp]
  rw [msgCount_insFold]
  exact msgCount_sessFold_mem sd (db, stats) sid d
    (parsePhase_keys_nodup f sd ms hp) hm

/-! Claim C5: session merge is additive over raw per-pass counts. -/

/-- C5: merging a pass's summary for an existing session updates the
stored row by `last_ts = max(stored, incoming)` and
`message_count = message_count + incoming count`, where the incoming
count is the raw per-pass event count; consequently indexing the same
file twice adds that per-run count to the session both times, even
though the messages table stays deduplicated. -/
theorem claimC5 (f : FileRead) (db : DB) (s1 s2 : Stats)
    (sd : List (String × SessData)) (ms : List MsgRow) (sid : String)
    (d : SessData) (db' : DB) (d' : SessData) (r : SessRow)
    (hp : parsePhase f = some (sd, ms)) (hm : (sid, d) ∈ sd)
    (hr : sessionRow db' sid = some r) :
    sessionRow (upsertSession sid d' db') sid =
      some { r with last_ts := sqliteMax r.last_ts d'.last_ts,
                    message_count := r.message_count + d'.count } ∧
    msgCount (index_jsonl f db s1).1 sid =
      some ((msgCount db sid).getD 0 + d.count) ∧
    msgCount (index_jsonl f (index_jsonl f db s1).1 s2).1 sid =
      some ((msgCount db sid).getD 0 + d.count + d.count) := by
  refine ⟨sessionRow_upsert_of_some db' sid d' r hr, ?_, ?_⟩
  · exact msgCount_index_jsonl f db s1 sd ms sid d hp hm
  · rw [msgCount_index_jsonl f _ s2 sd ms sid d hp hm,
      msgCount_index_jsonl f db s1 sd ms sid d hp hm]
    rfl

/-- Concrete check of C5: merging `dGood` into a stored row with count
5 yields `max` of the timestamps and count 6, and indexing the
one-record file twice from the fresh database gives counts 1 then 2. -/
theorem claimC5_witness :
    sessionRow (upsertSession "s1" dGood dbS1) "s1" =
      some { rowS1 with last_ts := sqliteMax rowS1.last_ts dGood.last_ts,
                        message_count := rowS1.message_count + dGood.count } ∧
    msgCount (index_jsonl (FileRead.ok [RawLine.record eGood]) emptyDB
        stats0).1 "s1" =
      some ((msgCount emptyDB "s1").getD 0 + dGood.count) ∧
    msgCount (index_jsonl (FileRead.ok [RawLine.record eGood])
        (index_jsonl (FileRead.ok [RawLine.record eGood]) emptyDB stats0).1
        stats0).1 "s1" =
      some ((msgCount emptyDB "s1").getD 0 + dGood.count + dGood.count) :=
  claimC5 (FileRead.ok [RawLine.record eGood]) emptyDB stats0 stats0
    [("s1", dGood)] [mkMsg eGood] "s1" dGood dbS1 dGood rowS1
    (by rfl) (by simp) (by rfl)

/-! Claim C6: first_ts ≤ last_ts for stored sessions. -/

theorem SessInv_upsert (db : DB) (sid : String) (d : SessData)
    (hdb : SessInv db) (hd : sqliteLe d.first_ts d.last_ts = true) :
    SessInv (upsertSession sid d db) := by
  unfold upsertSession
  split
  · intro r hr
    rcases List.mem_map.1 hr with ⟨r', hr', hre⟩
    subst hre
    by_cases hx : (r'.session_id == sid) = true
    · rw [if_pos hx]
      exact sqliteLe_trans _ _ _ (hdb r' hr') (sqliteLe_max_left _ _)
    · rw [if_neg hx]
      exact hdb r' hr'
  · intro r hr
    rcases List.mem_append.1 hr with h1 | h2
    · exact hdb r h1
    · simp only [List.mem_singleton] at h2
      subst h2
      exact hd

theorem SessInv_sessFold (sd : List (String × SessData)) (p : DB × Stats)
    (hdb : SessInv p.1)
    (hall : ∀ sid d, (sid, d) ∈ sd → sqliteLe d.first_ts d.last_ts = true) :
    SessInv (sessFold sd p).1 := by
  induction sd generalizing p with
  | nil => exact hdb
  | cons x sd ih =>
    rw [sessFold_cons]
    refine ih _ ?_ (fun sid d hm => hall sid d (List.mem_cons_of_mem _ hm))
    exact SessInv_upsert _ _ _ hdb (hall x.1 x.2 (List.mem_cons_self _ _))

theorem SessInv_insFold (ms : List MsgRow) (p : DB × Stats)
    (hdb : SessInv p.1) : SessInv (insFold ms p).1 := by
  unfold SessInv at *
  rw [insFold_sessions]
  exact hdb

theorem SessInv_index_jsonl (f : FileRead) (db : DB) (stats : Stats)
    (hdb : SessInv db) (hok : summariesOK f) :
    SessInv (index_jsonl f db stats).1 := by
  cases hp : parsePhase f with
  | none =>
    simp only [index_jsonl, hp]
    exact hdb
  | some v =>
    obtain ⟨sd, ms⟩ := v
    simp only [index_jsonl, hp]
    exact SessInv_insFold _ _
      (SessInv_sessFold _ _ hdb (fun sid d hm => hok sd ms sid d hp hm))

theorem indexFiles_cons (f : FileRead) (fs : List FileRead) (db : DB)
    (stats : Stats) :
    indexFiles (f :: fs) db stats =
      indexFiles fs (index_jsonl f db stats).1 (index_jsonl f db stats).2 :=
  rfl

theorem SessInv_indexFiles (fs : List FileRead) (db : DB) (stats : Stats)
    (hdb : SessInv db) (h : ∀ f ∈ fs, summariesOK f) :
    SessInv (indexFiles fs db stats).1 := by
  induction fs generalizing db stats with
  | nil => exact hdb
  | cons f fs ih =>
    rw [indexFiles_cons]
    exact ih _ _
      (SessInv_index_jsonl f db stats hdb (h f (List.mem_cons_self _ _)))
      (fun g hg => h g (List.mem_cons_of_mem _ hg))

/-- C6 (amended): provided every per-pass session summary of every
indexed file comes out with `first_ts ≤ last_ts` — which is what holds
when each session's retained events appear in nondecreasing timestamp
order within each file — every stored session row satisfies
`first_ts ≤ last_ts` after any sequence of completed indexing passes
from the fresh database.  Unconditionally the invariant can fail,
because within a pass `last_ts` is last-write-wins, not a maximum
(see the counterexample). -/
theorem claimC6 (fs : List FileRead) (h : ∀ f ∈ fs, summariesOK f) :
    SessInv (indexFiles fs emptyDB stats0).1 :=
  SessInv_indexFiles fs emptyDB stats0 (fun r hr => by cases hr) h

/-- Refutation of C6 as stated: a file whose two events for session
`"s1"` carry timestamps `"t1"` then `"t0"` (out of order) produces a
stored row with `first_ts = "t1" > last_ts = "t0"`. -/
theorem claimC6_counterexample :
    ¬ SessInv (index_jsonl
      (FileRead.ok [RawLine.record eGood, RawLine.record eEarlier])
      emptyDB stats0).1 := by
  unfold SessInv
  decide

/-- Concrete check of the amended C6 on a one-record file. -/
theorem claimC6_witness :
    SessInv (indexFiles [FileRead.ok [RawLine.record eGood]] emptyDB
      stats0).1 := by
  apply claimC6
  intro f hf
  simp only [List.mem_singleton] at hf
  subst hf
  intro sd ms sid d hp hm
  rw [show parsePhase (FileRead.ok [RawLine.record eGood]) =
      some ([("s1", dGood)], [mkMsg eGood]) from rfl] at hp
  injection hp with h1
  injection h1 with h2 h3
  subst h2
  simp only [List.mem_singleton, Prod.mk.injEq] at hm
  rw [hm.2]
  exact sqliteLe_refl _

/-! Claim C3: local, silent discarding of unusable lines. -/

theorem processLine_record (e : Entry) :
    processLine (RawLine.record e) =
      if e.type = "user" ∨ e.type = "assistant" ∨ e.type = "summary" then
        if e.sessionId = "" then Except.ok none else Except.ok (some e)
      else Except.ok none := rfl

theorem aggEntries_cons (e : Entry) (es : List Entry)
    (sd : List (String × SessData)) (ms : List MsgRow) :
    aggEntries (e :: es) sd ms =
      aggEntries es (updateSess sd e) (ms ++ [mkMsg e]) := rfl

theorem retainedEntries_cons_skip (l : RawLine) (ls : List RawLine)
    (h : processLine l = Except.ok none) :
    retainedEntries (l :: ls) = retainedEntries ls := by
  unfold retainedEntries
  rw [List.filterMap_cons]
  simp only [h]

theorem retainedEntries_cons_keep (l : RawLine) (ls : List RawLine)
    (e : Entry) (h : processLine l = Except.ok (some e)) :
    retainedEntries (l :: ls) = e :: retainedEntries ls := by
  unfold retainedEntries
  rw [List.filterMap_cons]
  simp only [h]

theorem parseLines_eq_agg (ls : List RawLine) (sd : List (String × SessData))
    (ms : List MsgRow) (h : RawLine.nonObject ∉ ls) :
    parseLines ls sd ms = some (aggEntries (retainedEntries ls) sd ms) := by
  induction ls generalizing sd ms with
  | nil => rfl
  | cons l ls ih =>
    simp only [List.mem_cons, not_or] at h
    have htail := h.2
    cases l with
    | blank =>
      rw [retainedEntries_cons_skip RawLine.blank ls (by rfl)]
      exact ih sd ms htail
    | malformed =>
      rw [retainedEntries_cons_skip RawLine.malformed ls (by rfl)]
      exact ih sd ms htail
    | nonObject => exact absurd rfl h.1
    | record e =>
      by_cases h1 : (e.type = "user" ∨ e.type = "assistant" ∨
          e.type = "summary")
      · by_cases h2 : e.sessionId = ""
        · have hpe : processLine (RawLine.record e) = Except.ok none := by
            rw [processLine_record, if_pos h1, if_pos h2]
          rw [retainedEntries_cons_skip _ _ hpe]
          simp only [parseLines, hpe]
          exact ih sd ms htail
        · have hpe : processLine (RawLine.record e) =
              Except.ok (some e) := by
            rw [processLine_record, if_pos h1, if_neg h2]
          rw [retainedEntries_cons_keep _ _ e hpe, aggEntries_cons]
          simp only [parseLines, hpe]
          exact ih _ _ htail
      · have hpe : processLine (RawLine.record e) = Except.ok none := by
          rw [processLine_record, if_neg h1]
        rw [retainedEntries_cons_skip _ _ hpe]
        simp only [parseLines, hpe]
        exact ih sd ms htail

/-- C3 (amended): a line that is blank, fails JSON decoding with a
per-line decode error, has a type outside {user, assistant, summary},
or has a missing/falsy sessionId is discarded locally and silently —
no exception escapes, the enclosing file is not aborted, and the file
parses to exactly the aggregation of its retained lines.  This holds
provided no line of the file raises during processing; a line that is
valid JSON but not an object does raise and aborts the whole file (see
the counterexample), which is the one divergence from the claim as
stated. -/
theorem claimC3 (ls : List RawLine) (h : RawLine.nonObject ∉ ls) :
    parsePhase (FileRead.ok ls) =
      some (aggEntries (retainedEntries ls) [] []) ∧
    processLine RawLine.blank = Except.ok none ∧
    processLine RawLine.malformed = Except.ok none ∧
    (∀ e : Entry, ¬(e.type = "user" ∨ e.type = "assistant" ∨
        e.type = "summary") →
      processLine (RawLine.record e) = Except.ok none) ∧
    (∀ e : Entry, e.sessionId = "" →
      processLine (RawLine.record e) = Except.ok none) := by
  refine ⟨parseLines_eq_agg ls [] [] h, rfl, rfl, ?_, ?_⟩
  · intro e he
    rw [processLine_record, if_neg he]
  · intro e he
    rw [processLine_record]
    by_cases h1 : (e.type = "user" ∨ e.type = "assistant" ∨
        e.type = "summary")
    · rw [if_pos h1, if_pos he]
    · rw [if_neg h1]

/-- Refutation of C3 as stated: a line that is valid JSON but not an
object (so it fails to decode as a structured record) aborts the whole
file — the following well-formed record on the next line is not
processed and the error counter is incremented — whereas the same
record alone indexes fine. -/
theorem claimC3_counterexample :
    (index_jsonl (FileRead.ok [RawLine.nonObject, RawLine.record eGood])
        emptyDB stats0).1.messages = [] ∧
    (index_jsonl (FileRead.ok [RawLine.nonObject, RawLine.record eGood])
        emptyDB stats0).2.errors = 1 ∧
    (index_jsonl (FileRead.ok [RawLine.record eGood])
        emptyDB stats0).1.messages ≠ [] := by
  refine ⟨by decide, by decide, by decide⟩

/-- Concrete check of the amended C3: a file with one line of each
benign kind plus one good record parses without error to the
aggregation of its retained lines. -/
theorem claimC3_witness :
    parsePhase (FileRead.ok [RawLine.blank, RawLine.malformed,
        RawLine.record eBadType, RawLine.record eNoSession,
        RawLine.record eGood]) =
      some (aggEntries (retainedEntries [RawLine.blank, RawLine.malformed,
        RawLine.record eBadType, RawLine.record eNoSession,
        RawLine.record eGood]) [] []) :=
  (claimC3 [RawLine.blank, RawLine.malformed, RawLine.record eBadType,
    RawLine.record eNoSession, RawLine.record eGood] (by decide)).1

/-! Claim C4: content normalization of block sequences. -/

theorem pySlice_of_not_lt (c : String) (h : ¬ 500 < c.length) :
    pySlice c 500 = c := by
  unfold pySlice
  have hl : c.data.length ≤ 500 := Nat.not_lt.1 h
  rw [List.take_of_length_le hl]

theorem extract_foldl (bs : List Block) (ts ns : List String) :
    bs.foldl extractStep (ts, ns) =
      (ts ++ specTextParts bs, ns ++ specToolNames bs) := by
  induction bs generalizing ts ns with
  | nil => simp [specTextParts, specToolNames]
  | cons b bs ih =>
    cases b with
    | text t =>
      rw [List.foldl_cons]
      show bs.foldl extractStep (ts ++ [t], ns) = _
      rw [ih]
      simp [specTextParts, specToolNames, List.append_assoc]
    | tool_use n =>
      rw [List.foldl_cons]
      show bs.foldl extractStep (ts, ns ++ [n]) = _
      rw [ih]
      simp [specToolNames, specTextParts, List.append_assoc]
    | tool_result c =>
      rw [List.foldl_cons]
      show bs.foldl extractStep (ts ++ [pySlice c 500], ns) = _
      rw [ih]
      by_cases hc : 500 < c.length
      · simp [specTextParts, specToolNames, hc, List.append_assoc]
      · simp [specTextParts, specToolNames, hc, List.append_assoc,
          pySlice_of_not_lt c hc]
    | other =>
      rw [List.foldl_cons]
      show bs.foldl extractStep (ts, ns) = _
      rw [ih]
      simp [specTextParts, specToolNames]

/-- C4: for a payload whose content is a block sequence, the
normalized text is exactly the contributions of text blocks (their
text) and tool-result blocks (truncated to the first 500 characters
when longer), joined with newline separators in block order; the
tool-invocation names appear only in `tool_names`, in block order,
without deduplication. -/
theorem claimC4 (role model : String) (bs : List Block) :
    extract_content (some (MessageObj.mk role (Content.blocks bs) model)) =
      (String.intercalate "\n" (specTextParts bs), model,
        specToolNames bs) := by
  show (String.intercalate "\n" (bs.foldl extractStep ([], [])).1, model,
      (bs.foldl extractStep ([], [])).2) =
    (String.intercalate "\n" (specTextParts bs), model, specToolNames bs)
  rw [extract_foldl bs [] []]
  simp

/-! Claim C8: ordering of the two search entry points. -/

/-- C8 (amended): each search entry point follows one deterministic
ordering — `cmd_search` sorts its matches by timestamp descending and
`search` by the engine's relevance rank ascending — but the two call
sites do not share one ordering (see the counterexample for a database
and rank where the outputs differ). -/
theorem claimC8 (db : DB) (q : String) (limit : Nat)
    (rank : String → String → Int) :
    List.Sorted tsDesc (cmd_search db q limit) ∧
    List.Sorted (rankAsc rank q) (search rank db q limit) := by
  haveI : IsTotal MsgRow tsDesc :=
    ⟨fun a b => sqliteLe_total b.timestamp a.timestamp⟩
  haveI : IsTrans MsgRow tsDesc :=
    ⟨fun a b c h h' => sqliteLe_trans _ _ _ h' h⟩
  constructor
  · exact List.Pairwise.sublist (List.take_sublist _ _)
      (List.sorted_insertionSort tsDesc (matchRows db q))
  · exact List.Pairwise.sublist (List.take_sublist _ _)
      (List.sorted_insertionSort (rankAsc rank q) (matchRows db q))

/-- Refutation of C8 as stated: on `dbAB`, with the engine ranking
shorter matching content better (as relevance ranking does),
`cmd_search` returns uuids `[b, a]` (timestamp descending) while
`search` returns `[a, b]` (rank) — the two entry points do not return
their matches in the same order. -/
theorem claimC8_counterexample :
    (cmd_search dbAB "hello" 10).map (fun m => m.uuid) ≠
      (search (fun _ c => (c.length : Int)) dbAB "hello" 10).map
        (fun m => m.uuid) := by decide

/-! Claim C9: showSession ordering, truncation and not-found report. -/

/-- C9 (amended): `show_session` reports the explicit not-found result
exactly when no stored session id matches the prefix pattern under
SQLite `LIKE` semantics (ASCII-case-insensitive, with `%` and `_` in
the prefix acting as wildcards — see the counterexample for why plain
literal-prefix matching misstates this); otherwise it resolves to the
first LIKE-matching session and returns its messages ordered by
timestamp ascending, each shown content being the stored content
itself when at most 800 characters and its first 800 characters with
the explicit `"..."` marker appended when longer.  The not-found
result is a distinct constructor, distinguishable from a found session
with no messages. -/
theorem claimC9 (db : DB) (pfx : String) (limit : Nat) :
    (show_session db pfx limit = ShowResult.notFound pfx ↔
      db.sessions.find?
        (fun r => sqliteLike (pfx ++ "%") r.session_id) = none) ∧
    ∀ sid dm, show_session db pfx limit = ShowResult.found sid dm →
      (∃ r ∈ db.sessions, r.session_id = sid ∧
        sqliteLike (pfx ++ "%") r.session_id = true) ∧
      List.Sorted
        (fun a b : ShownMsg => sqliteLe a.timestamp b.timestamp = true) dm ∧
      ∀ x ∈ dm, ∃ m ∈ db.messages, m.session_id = sid ∧
        x.content = displayContent m.content ∧ x.timestamp = m.timestamp ∧
        ((m.content.length ≤ 800 ∧ x.content = m.content) ∨
         (800 < m.content.length ∧
          x.content = pySlice m.content 800 ++ "...")) := by
  cases hf : db.sessions.find?
      (fun r => sqliteLike (pfx ++ "%") r.session_id) with
  | none =>
    have hss : show_session db pfx limit = ShowResult.notFound pfx := by
      simp only [show_session, hf]
    refine ⟨⟨fun _ => rfl, fun _ => hss⟩, ?_⟩
    intro sid dm heq
    rw [hss] at heq
    cases heq
  | some sess =>
    have hss : show_session db pfx limit = ShowResult.found sess.session_id
        ((((db.messages.filter
            (fun m => m.session_id == sess.session_id)).insertionSort
              tsAsc).take limit).map (fun m =>
          { type := m.type, role := m.role,
            content := displayContent m.content,
            timestamp := m.timestamp })) := by
      simp only [show_session, hf]
    refine ⟨?_, ?_⟩
    · constructor
      · intro hc
        rw [hss] at hc
        cases hc
      · intro hc
        cases hc
    · intro sid dm heq
      rw [hss] at heq
      injection heq with h1 h2
      subst h1
      subst h2
      refine ⟨⟨sess, List.mem_of_find?_eq_some hf, rfl, ?_⟩, ?_, ?_⟩
      · have := List.find?_some hf
        exact this
      · haveI : IsTotal MsgRow tsAsc :=
          ⟨fun a b => sqliteLe_total a.timestamp b.timestamp⟩
        haveI : IsTrans MsgRow tsAsc :=
          ⟨fun a b c h h' => sqliteLe_trans _ _ _ h h'⟩
        refine List.Pairwise.map _ (fun a b h => h) ?_
        exact List.Pairwise.sublist (List.take_sublist _ _)
          (List.sorted_insertionSort tsAsc _)
      · intro x hx
        rcases List.mem_map.1 hx with ⟨m, hm, hxm⟩
        have hm1 : m ∈ (db.messages.filter
            (fun m => m.session_id == sess.session_id)).insertionSort
              tsAsc :=
          (List.take_sublist _ _).subset hm
        have hm2 : m ∈ db.messages.filter
            (fun m => m.session_id == sess.session_id) :=
          (List.perm_insertionSort tsAsc _).subset hm1
        have hmf := List.mem_filter.1 hm2
        have hm3 : m ∈ db.messages := hmf.1
        have hm4 : (m.session_id == sess.session_id) = true := hmf.2
        refine ⟨m, hm3, eq_of_beq hm4, ?_, ?_, ?_⟩
        · rw [← hxm]
        · rw [← hxm]
        · by_cases hlen : 800 < m.content.length
          · refine Or.inr ⟨hlen, ?_⟩
            rw [← hxm]
            show displayContent m.content = _
            unfold displayContent
            rw [if_pos hlen]
          · refine Or.inl ⟨Nat.not_lt.1 hlen, ?_⟩
            rw [← hxm]
            show displayContent m.content = _
            unfold displayContent
            rw [if_neg hlen]

/-- Refutation of C9 as stated: no stored session id has the literal
prefix `"%"`, yet `show_session` with prefix `"%"` does not report
not-found — the prefix is interpolated into a `LIKE` pattern, so `%`
acts as a wildcard and matches session `"s1"`. -/
theorem claimC9_counterexample :
    (dbS1.sessions.all
      (fun r => ! ("%".data.isPrefixOf r.session_id.data))) = true ∧
    show_session dbS1 "%" 50 ≠ ShowResult.notFound "%" := by
  refine ⟨by decide, by decide⟩

/-- Concrete check of the amended C9: on `dbShow` with prefix `"s"`,
the two messages come back sorted by timestamp ascending and each
shown content originates from a stored message of session `"s1"`. -/
theorem claimC9_witness :
    List.Sorted
      (fun a b : ShownMsg => sqliteLe a.timestamp b.timestamp = true)
      [shownA, shownB] ∧
    ∀ x ∈ [shownA, shownB],
      ∃ m ∈ dbShow.messages, m.session_id = "s1" ∧
        x.content = displayContent m.content ∧ x.timestamp = m.timestamp ∧
        ((m.content.length ≤ 800 ∧ x.content = m.content) ∨
         (800 < m.content.length ∧
          x.content = pySlice m.content 800 ++ "...")) := by
  have h := (claimC9 dbShow "s" 50).2 "s1" [shownA, shownB] (by decide)
  exact ⟨h.2.1, h.2.2⟩

end ClaudeHistory
